import Mathlib

/-
Shallow embedding of the `seal-server.py` HTTP proxy (Python 2) and proofs
about its behaviour.  Byte strings (Python 2 `str`) are modelled as `List Char`;
sockets are modelled by the list of successive `recv` results; while-loops are
modelled by structurally recursive functions with an explicit fuel argument
(`Err.fuel` marks fuel exhaustion, every other error mirrors an exception
raised by the Python code).
-/

deriving instance DecidableEq for Except

namespace Seal

/-- Byte strings (Python 2 `str`) are lists of characters. -/
abbrev Str := List Char

/-- Coerce a Lean string literal to the byte-string model. -/
def str (s : String) : Str := s.data

/-- The CRLF line terminator. -/
def CRLF : Str := ['\r', '\n']

/-- The characters of the Python string `" \t"`, used by `strip(" \t")`. -/
def blankChars : Str := [' ', '\t']

/-- Membership of a character in a Python string, as in `c in " \t"`. -/
def pyContains (cs : Str) (c : Char) : Bool := cs.contains c

/-- Python `s.strip(cs)`: remove leading and trailing characters drawn from `cs`. -/
def pyStrip (cs : Str) (s : Str) : Str :=
  ((s.dropWhile (pyContains cs)).reverse.dropWhile (pyContains cs)).reverse

/-- Python `s.lower()` on ASCII byte strings. -/
def pyLower (s : Str) : Str := s.map Char.toLower

/-- Index of the first occurrence of a character, if any (`s.find(c)` ≥ 0 cases). -/
def findChar (ch : Char) : Str → Option Nat
  | [] => none
  | c :: cs => if c = ch then some 0 else (findChar ch cs).map (· + 1)

/-- Index of the first occurrence of the substring `"\r\n"`, if any
(`s.find("\r\n")` ≥ 0 cases). -/
def findCRLF : Str → Option Nat
  | [] => none
  | [_] => none
  | c1 :: c2 :: rest =>
    if c1 = '\r' ∧ c2 = '\n' then some 0
    else (findCRLF (c2 :: rest)).map (· + 1)

/-- Python `s.split(sep, 1)[0]`: the text before the first separator. -/
def pySplitFirst (sep : Char) (s : Str) : Str := s.takeWhile (· ≠ sep)

/-- Clamp a Python slice index into `[0, len]`, resolving negative indices. -/
def sliceIdx (len : Nat) (i : Int) : Nat :=
  if i < 0 then (max 0 (i + len)).toNat else min i.toNat len

/-- Python slice `s[a:b]` with full negative-index and clamping semantics. -/
def pySlice (s : Str) (a b : Int) : Str :=
  (s.take (sliceIdx s.length b)).drop (sliceIdx s.length a)

/-- Python indexing `s[i]` (negative indices wrap; out of range raises, here `none`). -/
def pyIndex (s : Str) (i : Int) : Option Char :=
  let j : Int := if i < 0 then i + s.length else i
  if j < 0 ∨ (s.length : Int) ≤ j then none else s.get? j.toNat

/-- Python `s.find(c, start)`: first index ≥ `start` holding `c`, or `-1`. -/
def pyFindFrom (ch : Char) (s : Str) (start : Int) : Int :=
  let st := sliceIdx s.length start
  match findChar ch (s.drop st) with
  | some i => (st + i : Nat)
  | none => -1

/-- Python `s.find(c)`, returning `-1` when absent. -/
def pyFind (ch : Char) (s : Str) : Int := pyFindFrom ch s 0

/-- Python `s.rfind(c)`, returning `-1` when absent. -/
def pyRfind (ch : Char) (s : Str) : Int :=
  match findChar ch s.reverse with
  | some i => (s.length - 1 - i : Nat)
  | none => -1

/-- Value of one digit in the given base, if valid. -/
def digitVal (base : Nat) (c : Char) : Option Nat :=
  let d :=
    if '0' ≤ c ∧ c ≤ '9' then some (c.toNat - '0'.toNat)
    else if 'a' ≤ c ∧ c ≤ 'f' then some (c.toNat - 'a'.toNat + 10)
    else if 'A' ≤ c ∧ c ≤ 'F' then some (c.toNat - 'A'.toNat + 10)
    else none
  match d with
  | some v => if v < base then some v else none
  | none => none

/-- Accumulate the value of a digit string in the given base. -/
def digitsValAux (base : Nat) (acc : Nat) : Str → Option Nat
  | [] => some acc
  | c :: cs =>
    match digitVal base c with
    | some d => digitsValAux base (acc * base + d) cs
    | none => none

/-- Value of a non-empty digit string in the given base. -/
def digitsVal (base : Nat) (s : Str) : Option Nat :=
  match s with
  | [] => none
  | _ => digitsValAux base 0 s

/-- The whitespace characters stripped by Python `int()`. -/
def pyWsChars : Str := [' ', '\t', '\n', '\r', '\x0b', '\x0c']

/-- Python `int(s)` (base 10): optional surrounding whitespace, optional sign,
then decimal digits; `none` models a raised `ValueError`. -/
def pyIntDec (s : Str) : Option Int :=
  match pyStrip pyWsChars s with
  | '+' :: ds => (digitsVal 10 ds).map Int.ofNat
  | '-' :: ds => (digitsVal 10 ds).map (fun n => -(n : Int))
  | ds => (digitsVal 10 ds).map Int.ofNat

/-- Hex digits after an optional `0x` / `0X` marker. -/
def hexBody (s : Str) : Option Nat :=
  match s with
  | '0' :: 'x' :: ds => digitsVal 16 ds
  | '0' :: 'X' :: ds => digitsVal 16 ds
  | ds => digitsVal 16 ds

/-- Python `int(s, 16)`: optional surrounding whitespace, optional sign,
optional `0x` marker, then hex digits; `none` models a raised `ValueError`. -/
def pyIntHex (s : Str) : Option Int :=
  match pyStrip pyWsChars s with
  | '+' :: ds => (hexBody ds).map Int.ofNat
  | '-' :: ds => (hexBody ds).map (fun n => -(n : Int))
  | ds => (hexBody ds).map Int.ofNat

/-- Errors raised by the modelled code.  `fuel` marks exhaustion of the fuel
bound of a loop and corresponds to no Python behaviour. -/
inductive Err
  | ioException (reason : String)
  | valueError
  | indexError
  | fuel
deriving DecidableEq

/-- The ordered header multimap of `seal-server.py` (`class HttpHeaders`):
two parallel lists of names and values. -/
structure HttpHeaders where
  keys : List Str
  values : List Str
deriving DecidableEq

/-- Helper for `HttpHeaders.get`: walk both lists in parallel comparing
lowercased keys, as the Python `for i in range(0, len(self.keys))` loop does. -/
def getAux (key : Str) : List Str → List Str → Option Str
  | k :: ks, v :: vs => if pyLower k = key then some v else getAux key ks vs
  | _, _ => none

/-- `HttpHeaders.get(key)`: first value whose name matches case-insensitively. -/
def HttpHeaders.get (h : HttpHeaders) (key : Str) : Option Str :=
  getAux (pyLower key) h.keys h.values

/-- Helper for `HttpHeaders.find`: first index ≥ the given one whose
lowercased key matches. -/
def findLowerAux (key : Str) : Nat → List Str → Option Nat
  | _, [] => none
  | i, k :: ks => if pyLower k = key then some i else findLowerAux key (i + 1) ks

/-- `HttpHeaders.find(key, start)`: index of the first case-insensitive match at
or after `start` (the Python code returns `-1`, modelled as `none`; a `start`
beyond the list length short-circuits to `-1`). -/
def HttpHeaders.find (h : HttpHeaders) (key : Str) (start : Nat) : Option Nat :=
  if h.keys.length < start then none
  else findLowerAux (pyLower key) start (h.keys.drop start)

/-- `HttpHeaders.append(key, value)`. -/
def HttpHeaders.append (h : HttpHeaders) (key value : Str) : HttpHeaders :=
  { keys := h.keys ++ [key], values := h.values ++ [value] }

/-- `HttpHeaders.pop(i)` (`list.pop(i)` on both lists; the Python call raises
`IndexError` out of range, modelled as `none`). -/
def HttpHeaders.pop (h : HttpHeaders) (i : Nat) : Option HttpHeaders :=
  if i < h.keys.length ∧ i < h.values.length then
    some { keys := h.keys.eraseIdx i, values := h.values.eraseIdx i }
  else none

/-- The `while i != -1` loop of `HttpHeaders.delete`, with fuel. -/
def deleteAux (fuel : Nat) (h : HttpHeaders) (key : Str) (i : Option Nat) :
    Option HttpHeaders :=
  match fuel with
  | 0 => none
  | fuel + 1 =>
    match i with
    | none => some h
    | some i =>
      match h.pop i with
      | none => none
      | some h' => deleteAux fuel h' key (h'.find key i)

/-- `HttpHeaders.delete(key, start)`: remove every match at or after `start`. -/
def HttpHeaders.delete (h : HttpHeaders) (key : Str) (start : Nat) :
    Option HttpHeaders :=
  deleteAux (h.keys.length + 1) h key (h.find key start)

/-- `HttpHeaders.set(key, value)`: overwrite the first match and delete later
duplicates, else append.  (`__setitem__` delegates to this method.) -/
def HttpHeaders.set (h : HttpHeaders) (key value : Str) : Option HttpHeaders :=
  match h.find key 0 with
  | some i => HttpHeaders.delete { h with values := h.values.set i value } key (i + 1)
  | none => some (h.append key value)

/-- `HttpHeaders.at(i)`: the (key, value) pair at index `i` (Python raises
`IndexError` out of range, modelled as `none`). -/
def HttpHeaders.at (h : HttpHeaders) (i : Nat) : Option (Str × Str) :=
  match h.keys.get? i, h.values.get? i with
  | some k, some v => some (k, v)
  | _, _ => none

/-- `HttpHeaders.__str__`: serialize every pair as `name ": " value CRLF`,
walking both lists in parallel as the indexed Python loop does. -/
def toStrAux : List Str → List Str → Str
  | k :: ks, v :: vs => k ++ ':' :: ' ' :: v ++ CRLF ++ toStrAux ks vs
  | _, _ => []

/-- Serialization of a header multimap (`str(headers)`). -/
def HttpHeaders.toStr (h : HttpHeaders) : Str := toStrAux h.keys h.values

/-- `class HttpMessage`: start line, header multimap, body, body-transfer flag. -/
structure HttpMessage where
  start_line : Str
  headers : HttpHeaders
  body : Str
  body_pending : Bool
deriving DecidableEq

/-- A freshly constructed message (`HttpMessage.__init__`). -/
def emptyMessage : HttpMessage :=
  { start_line := [], headers := ⟨[], []⟩, body := [], body_pending := false }

/-- `HttpMessage.__str__`: start line, headers, blank line, body. -/
def HttpMessage.toStr (m : HttpMessage) : Str :=
  m.start_line ++ CRLF ++ m.headers.toStr ++ CRLF ++ m.body

/-- `HttpMessage.add(key, val)`. -/
def HttpMessage.add (m : HttpMessage) (key val : Str) : HttpMessage :=
  { m with headers := m.headers.append key val }

/-- `HttpMessage.add_header_line(line)`: split at the first colon, strip blanks
from both sides.  When no colon exists Python's `find` returns `-1`, making the
key `line[:-1]` and the value `line[0:]`; both branches are modelled. -/
def HttpMessage.add_header_line (m : HttpMessage) (line : Str) : HttpMessage :=
  match findChar ':' line with
  | some p =>
    m.add (pyStrip blankChars (line.take p)) (pyStrip blankChars (line.drop (p + 1)))
  | none =>
    m.add (pyStrip blankChars (line.take (line.length - 1))) (pyStrip blankChars line)

/-- `HttpMessage.get(key)`. -/
def HttpMessage.get (m : HttpMessage) (key : Str) : Option Str :=
  m.headers.get key

/-- `HttpMessage.get_int(key, default)`: parse the header value with `int()`;
`none` models the `ValueError` raised on an unparseable value. -/
def HttpMessage.get_int (m : HttpMessage) (key : Str) (defaultValue : Int) :
    Option Int :=
  match m.headers.get key with
  | some v => pyIntDec v
  | none => some defaultValue

/-- `HttpMessage.has(key)`. -/
def HttpMessage.has (m : HttpMessage) (key : Str) : Bool :=
  (m.headers.find key 0).isSome

/-- `HttpRequest.method`: `start_line.split(" ", 1)[0]`.  The request accessors
take the message whose `start_line` they read (subclassing is flattened). -/
def HttpRequest.method (m : HttpMessage) : Str := pySplitFirst ' ' m.start_line

/-- `HttpRequest.target`: the text strictly between the first and last space,
stripped of blanks. -/
def HttpRequest.target (m : HttpMessage) : Str :=
  pyStrip blankChars
    (pySlice m.start_line (pyFind ' ' m.start_line + 1) (pyRfind ' ' m.start_line))

/-- `HttpRequest.set_request(target, method, version)` builds the start line. -/
def HttpRequest.set_request (target method version : Str) : Str :=
  method ++ ' ' :: target ++ ' ' :: version

/-- `HttpRequest.version`: the text after the last space, stripped. -/
def HttpRequest.version (m : HttpMessage) : Str :=
  pyStrip blankChars (pySlice m.start_line (pyRfind ' ' m.start_line + 1) m.start_line.length)

/-- `HttpResponse.version`: the text before the first space. -/
def HttpResponse.version (m : HttpMessage) : Str :=
  pySlice m.start_line 0 (pyFind ' ' m.start_line)

/-- The `while self.start_line[a] == ' '` loop shared by `HttpResponse.code`
and `HttpResponse.phrase`.  Its body is `a = ++a`: Python parses `++a` as
`+(+a)`, so `a` never changes and the loop re-tests the same index. -/
def skipSpacesLoop (line : Str) : Nat → Int → Except Err Int
  | 0, _ => .error .fuel
  | fuel + 1, a =>
    match pyIndex line a with
    | none => .error .indexError
    | some c => if c = ' ' then skipSpacesLoop line fuel a else .ok a

/-- `HttpResponse.code`: find the first space, run the (stuck) space-skipping
loop, then parse the integer between `a` and the next space. -/
def HttpResponse.code (m : HttpMessage) (fuel : Nat) : Except Err Int :=
  let a := pyFind ' ' m.start_line
  -- a = ++a leaves a unchanged
  match skipSpacesLoop m.start_line fuel a with
  | .error e => .error e
  | .ok a' =>
    let b := pyFindFrom ' ' m.start_line a'
    match pyIntDec (pySlice m.start_line a' b) with
    | some v => .ok v
    | none => .error .valueError

/-- `HttpResponse.phrase`: same stuck loop, then the stripped text after the
next space. -/
def HttpResponse.phrase (m : HttpMessage) (fuel : Nat) : Except Err Str :=
  let a := pyFind ' ' m.start_line
  -- a = ++a leaves a unchanged
  match skipSpacesLoop m.start_line fuel a with
  | .error e => .error e
  | .ok a' =>
    let b := pyFindFrom ' ' m.start_line a'
    .ok (pyStrip blankChars (pySlice m.start_line (b + 1) m.start_line.length))

/-- `class HttpInputStream`: the socket is modelled by `segs`, the list of
byte strings that successive `conn.recv` calls will return; `rdbuf` is the
read buffer and `maxrdbuf` its capacity bound (128 KiB in the source). -/
structure HttpInputStream where
  segs : List Str
  rdbuf : Str
  maxrdbuf : Nat
deriving DecidableEq

/-- Total bytes the stream can still deliver; used only to size fuel bounds. -/
def HttpInputStream.totalRemaining (st : HttpInputStream) : Nat :=
  st.rdbuf.length + (st.segs.map List.length).sum

/-- `HttpInputStream.wait`: nothing to do if the buffer holds data; otherwise
one `recv`.  An exhausted `segs` models a transport error (`recv` raising),
an empty received string models the peer closing the connection. -/
def HttpInputStream.wait (st : HttpInputStream) : Except Err HttpInputStream :=
  if st.rdbuf ≠ [] then .ok st
  else
    match st.segs with
    | [] => .error (.ioException "Connection reset.")
    | s :: rest =>
      if s = [] then .error (.ioException "Connection closed.")
      else .ok { st with rdbuf := s, segs := rest }

/-- `HttpInputStream.read_some(max)`: wait for data, return at most `max`
buffered bytes. -/
def HttpInputStream.read_some (st : HttpInputStream) (mx : Nat) :
    Except Err (Str × HttpInputStream) :=
  match st.wait with
  | .error e => .error e
  | .ok st' => .ok (st'.rdbuf.take mx, { st' with rdbuf := st'.rdbuf.drop mx })

/-- The `while len(r) < n` loop of `HttpInputStream.read`.  The source sets
`a = n - len(r)` and then `if a < len(self.rdbuf): a = len(self.rdbuf)` — a
maximum where a refill read needs a minimum — so `r += self.rdbuf[:a]` always
takes the whole buffer. -/
def readLoop (n : Nat) : Nat → Str → HttpInputStream →
    Except Err (Str × HttpInputStream)
  | 0, _, _ => .error .fuel
  | fuel + 1, r, st =>
    if r.length < n then
      match st.wait with
      | .error e => .error e
      | .ok st' =>
        let a0 := n - r.length
        let a := if a0 < st'.rdbuf.length then st'.rdbuf.length else a0
        readLoop n fuel (r ++ st'.rdbuf.take a) { st' with rdbuf := st'.rdbuf.drop a }
    else .ok (r, st)

/-- `HttpInputStream.read(n)`.  Each loop iteration appends at least one byte
to `r`, so `n + 1` units of fuel always suffice. -/
def HttpInputStream.read (st : HttpInputStream) (n : Nat) :
    Except Err (Str × HttpInputStream) :=
  readLoop n (n + 1) [] st

/-- The `while crlf_pos == -1` loop of `HttpInputStream.read_line`. -/
def readLineLoop : Nat → Str → HttpInputStream → Except Err (Str × HttpInputStream)
  | 0, _, _ => .error .fuel
  | fuel + 1, r, st =>
    if st.maxrdbuf ≤ r.length then .error (.ioException "read_line run out of buffer")
    else
      match st.wait with
      | .error e => .error e
      | .ok st' =>
        match findCRLF st'.rdbuf with
        | some p => .ok (r ++ st'.rdbuf.take p, { st' with rdbuf := st'.rdbuf.drop (p + 2) })
        | none => readLineLoop fuel (r ++ st'.rdbuf) { st' with rdbuf := [] }

/-- `HttpInputStream.read_line`.  Every iteration that recurses empties the
buffer, so the following iteration consumes one element of `segs`; hence
`segs.length + 2` units of fuel always suffice. -/
def HttpInputStream.read_line (st : HttpInputStream) :
    Except Err (Str × HttpInputStream) :=
  readLineLoop (st.segs.length + 2) [] st

/-- The header loop of `HttpInputStream.read_message`: read lines until an
empty one; a line starting with SP or TAB is appended (stripped) to the
pending previous line, any other line flushes the pending line first. -/
def readHeaderLoop : Nat → HttpInputStream → HttpMessage → Str →
    Except Err (HttpMessage × Str × HttpInputStream)
  | 0, _, _, _ => .error .fuel
  | fuel + 1, st, m, prev =>
    match st.read_line with
    | .error e => .error e
    | .ok (curr, st') =>
      match curr with
      | [] => .ok (m, prev, st')
      | c :: _ =>
        if pyContains blankChars c then
          readHeaderLoop fuel st' m (prev ++ pyStrip blankChars curr)
        else
          readHeaderLoop fuel st'
            (if prev = [] then m else m.add_header_line prev) curr

/-- `HttpInputStream.read_message(m)`: start line, header loop, final flush of
the pending line, then the body when a parseable `Content-Length` within the
buffer capacity is present. -/
def HttpInputStream.read_message (st : HttpInputStream) (m : HttpMessage) :
    Except Err (HttpMessage × HttpInputStream) :=
  match st.read_line with
  | .error e => .error e
  | .ok (sl, st1) =>
    match readHeaderLoop (st1.totalRemaining + 1) st1 { m with start_line := sl } [] with
    | .error e => .error e
    | .ok (m1, prev, st2) =>
      let m2 := if prev = [] then m1 else m1.add_header_line prev
      let m3 := { m2 with body := [] }
      match m3.get_int (str "Content-Length") (-1) with
      | none => .error .valueError
      | some bodySize =>
        if 0 ≤ bodySize ∧ bodySize ≤ (st2.maxrdbuf : Int) then
          match st2.read bodySize.toNat with
          | .error e => .error e
          | .ok (b, st3) => .ok ({ m3 with body := b, body_pending := false }, st3)
        else .ok ({ m3 with body_pending := true }, st2)

/-- Methods for which `read_request` forces `body_pending` to false. -/
def noBodyMethods : List Str :=
  [str "GET", str "HEAD", str "DELETE", str "CONNECT", str "TRACE"]

/-- `HttpInputStream.read_request`: parse a message, then force the
body-transfer flag from the method (`True` for every method not listed). -/
def HttpInputStream.read_request (st : HttpInputStream) :
    Except Err (HttpMessage × HttpInputStream) :=
  match st.read_message emptyMessage with
  | .error e => .error e
  | .ok (r, st') =>
    if HttpRequest.method r ∈ noBodyMethods then
      .ok ({ r with body_pending := false }, st')
    else
      .ok ({ r with body_pending := true }, st')

/-
Output side.  `HttpOutputStream.write` loops over `conn.send` until the data
is written; its observable effect on a healthy connection is that the bytes
are appended to the output, which is how the functions below model it: each
returns the consumed input stream together with the bytes written.
-/

/-- The `while copied != count` loop of `HttpOutputStream.copy_bytes`. -/
def copyBytesLoop (count : Nat) : Nat → Nat → Str → HttpInputStream →
    Except Err (HttpInputStream × Str)
  | 0, _, _, _ => .error .fuel
  | fuel + 1, copied, out, src =>
    if copied ≠ count then
      match src.read_some (count - copied) with
      | .error e => .error e
      | .ok (d, src') => copyBytesLoop count fuel (copied + d.length) (out ++ d) src'
    else .ok (src, out)

/-- `HttpOutputStream.copy_bytes(src, count)`: copy exactly `count` bytes.
Each iteration copies at least one byte, so `count + 1` fuel suffices. -/
def HttpOutputStream.copy_bytes (src : HttpInputStream) (count : Nat) :
    Except Err (HttpInputStream × Str) :=
  copyBytesLoop count (count + 1) 0 [] src

/-- The chunk loop of `HttpOutputStream.copy_chunks`: read a chunk header
line, parse its first space-separated token as hex; stop before writing when
the size is ≤ 0, otherwise write the header verbatim plus CRLF and copy
`size + 2` bytes (data and its CRLF). -/
def copyChunksLoop : Nat → Str → HttpInputStream → Except Err (HttpInputStream × Str)
  | 0, _, _ => .error .fuel
  | fuel + 1, out, src =>
    match src.read_line with
    | .error e => .error e
    | .ok (chunkHeader, src1) =>
      match pyIntHex (pySplitFirst ' ' (pyStrip blankChars chunkHeader)) with
      | none => .error .valueError
      | some chunkSize =>
        if chunkSize ≤ 0 then .ok (src1, out)
        else
          match HttpOutputStream.copy_bytes src1 (chunkSize.toNat + 2) with
          | .error e => .error e
          | .ok (src2, d) => copyChunksLoop fuel (out ++ chunkHeader ++ CRLF ++ d) src2

/-- The trailer loop of `HttpOutputStream.copy_chunks`: copy non-empty lines
verbatim (plus CRLF) until an empty line. -/
def trailerLoop : Nat → Str → HttpInputStream → Except Err (HttpInputStream × Str)
  | 0, _, _ => .error .fuel
  | fuel + 1, out, src =>
    match src.read_line with
    | .error e => .error e
    | .ok (t, src') =>
      if t = [] then .ok (src', out)
      else trailerLoop fuel (out ++ t ++ CRLF) src'

/-- `HttpOutputStream.copy_chunks(src)`: chunk loop, a literal `"0\r\n"`,
trailer loop, final CRLF.  Every loop iteration consumes at least one input
byte, so the remaining input sizes the fuel. -/
def HttpOutputStream.copy_chunks (src : HttpInputStream) :
    Except Err (HttpInputStream × Str) :=
  match copyChunksLoop (src.totalRemaining + 1) [] src with
  | .error e => .error e
  | .ok (src1, out1) =>
    match trailerLoop (src1.totalRemaining + 1) (out1 ++ str "0\r\n") src1 with
    | .error e => .error e
    | .ok (src2, out2) => .ok (src2, out2 ++ CRLF)

/-
The proxy-handler request rewrite.  `urlparse.urlparse` is the Python 2
standard library; the model below reproduces its documented behaviour on the
URL forms a proxy receives (an optional scheme before `:`, an authority after
`//`, then path, with fragment and query split at the first `#` / `?`).
-/

/-- Result quadruple of the `urlparse` model (fragments are split off and
discarded; the handler never reads them). -/
structure UrlParts where
  scheme : Str
  netloc : Str
  path : Str
  query : Str
deriving DecidableEq

/-- Characters Python allows inside a URL scheme. -/
def isSchemeChar (c : Char) : Bool :=
  c.isAlpha || c.isDigit || c = '+' || c = '-' || c = '.'

/-- Split a string at the first occurrence of a character, dropping it. -/
def splitAtChar (ch : Char) (s : Str) : Str × Str :=
  match findChar ch s with
  | some i => (s.take i, s.drop (i + 1))
  | none => (s, [])

/-- Models `urlparse.urlparse(url)` (Python 2.7): the scheme is the lowercased
text before the first `:` when that text is non-empty, made of scheme
characters, and the remainder is not a bare port number; the authority follows
a leading `//` up to the next `/`, `?` or `#`; the fragment and query follow
the first `#` and `?`. -/
def urlparse (url : Str) : UrlParts :=
  let (scheme, rest) :=
    match findChar ':' url with
    | some i =>
      if 0 < i ∧ (url.take i).all isSchemeChar = true
          ∧ (url.drop (i + 1) = [] ∨ (url.drop (i + 1)).all Char.isDigit = false)
      then (pyLower (url.take i), url.drop (i + 1))
      else ([], url)
    | none => ([], url)
  let (netloc, rest2) :=
    if rest.take 2 = ['/', '/'] then
      ((rest.drop 2).takeWhile (fun c => ¬ (c = '/' ∨ c = '?' ∨ c = '#')),
       (rest.drop 2).dropWhile (fun c => ¬ (c = '/' ∨ c = '?' ∨ c = '#')))
    else ([], rest)
  let (rest3, _fragment) := splitAtChar '#' rest2
  let (path, query) := splitAtChar '?' rest3
  ⟨scheme, netloc, path, query⟩

/-- The host/port extraction of `HttpProxyHandler.handle_request`: split the
authority at `:` when present (the port parsed by `int`, whose failure raises,
modelled as `none`), else the whole authority with default port 80. -/
def extractHostPort (netloc : Str) : Option (Str × Int) :=
  match findChar ':' netloc with
  | some p => (pyIntDec (netloc.drop (p + 1))).map (fun port => (netloc.take p, port))
  | none => some (netloc, 80)

/-- The methods `handle_request` accepts besides CONNECT. -/
def recognizedMethods : List Str :=
  [str "GET", str "HEAD", str "POST", str "PUT", str "DELETE", str "TRACE",
   str "OPTIONS"]

/-- The header-copy loop of `handle_request`: every header whose lowercased
name starts with `proxy-` is skipped, the rest are appended in order.  The
Python loop walks indices `0 .. len(headers)` reading `keys[i]` and `at(i)`;
it is modelled over the zipped key/value lists. -/
def forwardHeaders (fwd : HttpMessage) : List (Str × Str) → HttpMessage
  | [] => fwd
  | (k, v) :: ps =>
    forwardHeaders (if (str "proxy-").isPrefixOf (pyLower k) then fwd else fwd.add k v) ps

/-- The rebuilt origin-form target of `handle_request`: `path[?query]`
(the local `target` of the Python code). -/
def originFormTarget (urlparts : UrlParts) : Str :=
  urlparts.path ++ (if urlparts.query ≠ [] then '?' :: urlparts.query else [])

/-- The fresh forwarded request before headers are copied (the Python local
`fwd` right after `set_request`). -/
def fwdBase (request : HttpMessage) (urlparts : UrlParts) : HttpMessage :=
  { emptyMessage with
      start_line := HttpRequest.set_request (originFormTarget urlparts)
        (HttpRequest.method request) (str "HTTP/1.1") }

/-- The forwarded message of `handle_request`: synthesize `Host` from the
authority when the request lacks one, then copy the non-proxy headers. -/
def buildFwd (request : HttpMessage) (urlparts : UrlParts) : HttpMessage :=
  forwardHeaders
    (if ¬ request.has (str "Host")
     then (fwdBase request urlparts).add (str "Host") urlparts.netloc
     else fwdBase request urlparts)
    (request.headers.keys.zip request.headers.values)

/-- The pure request-rewrite portion of `HttpProxyHandler.handle_request`
(everything before the socket send): dispatch on the method, parse the target,
extract host and port, rebuild the origin-form target, synthesize `Host` when
absent, copy non-proxy headers, carry over the body.  `none` models the paths
that do not build a forwarded request (CONNECT, unknown method, port parse
failure). -/
def handle_request_fwd (request : HttpMessage) : Option (Str × Int × HttpMessage) :=
  if HttpRequest.method request = str "CONNECT" then none
  else if HttpRequest.method request ∉ recognizedMethods then none
  else
    match extractHostPort (urlparse (HttpRequest.target request)).netloc with
    | none => none
    | some (host, port) =>
      some (host, port,
        { buildFwd request (urlparse (HttpRequest.target request)) with
            body := request.body, body_pending := request.body_pending })

/-
`class SocketTunnel`.  `select.select` is modelled by a trace of its results
(`SelectStep`), `recv` on each peer by a queue of byte strings (an exhausted
queue models a closed peer: every further `recv` returns the empty string),
and `sendall` by appending to the peer's delivered bytes.
-/

/-- One result of `select.select(peers, [], peers)`: the readable peer indices
and the peers with exceptional conditions (each 0 or 1). -/
structure SelectStep where
  r : List Nat
  x : List Nat
deriving DecidableEq

/-- The pump state: the pending `recv` results and bytes delivered so far, for
peers 0 and 1. -/
structure TunnelSt where
  bufs0 : List Str
  bufs1 : List Str
  sent0 : Str
  sent1 : Str
deriving DecidableEq

/-- `SocketTunnel._forward(src)`: receive from `src` (an empty queue yields
the empty string of a closed peer) and send the result to the other peer. -/
def SocketTunnel.forward (st : TunnelSt) (src : Nat) : TunnelSt :=
  if src = 0 then
    { st with bufs0 := st.bufs0.tail, sent1 := st.sent1 ++ st.bufs0.headD [] }
  else
    { st with bufs1 := st.bufs1.tail, sent0 := st.sent0 ++ st.bufs1.headD [] }

/-- One iteration of the `while True` loop of `SocketTunnel.run`: forward the
ready sides, then report (new state, loop exited).  The loop exits only via
`if len(x): break`. -/
def SocketTunnel.step (sel : SelectStep) (st : TunnelSt) : TunnelSt × Bool :=
  let st1 := if sel.r.length ≠ 0 then SocketTunnel.forward st (sel.r.headD 0) else st
  let st2 := if sel.r.length = 2 then SocketTunnel.forward st1 (sel.r.getD 1 0) else st1
  (st2, sel.x.length ≠ 0)

/-- `SocketTunnel.run` over a finite trace of select results.  `some st` means
the loop broke (and the code then raises `IOException("Socket tunnel
closed.")`); `none` means the loop was still running when the trace ended. -/
def SocketTunnel.run : List SelectStep → TunnelSt → Option TunnelSt
  | [], _ => none
  | s :: rest, st =>
    let (st1, stop) := SocketTunnel.step s st
    if stop then some st1 else SocketTunnel.run rest st1

/-- The sockets a handler owns, reduced to their closed flags. -/
structure HandlerSockets where
  client_closed : Bool
  remote_closed : Bool
deriving DecidableEq

/-- `HttpProxyHandler.final_clean`: close the client streams and socket, then
`close_remote`; it runs in the handler's `finally` block, so it also runs when
`SocketTunnel.run` raises. -/
def HttpProxyHandler.final_clean (_h : HandlerSockets) : HandlerSockets :=
  { client_closed := true, remote_closed := true }

/-
Valid chunked bodies, for the chunked relay identity.
-/

/-- One chunk of a chunked body: its header line and its data bytes. -/
structure Chunk where
  header : Str
  data : Str
deriving DecidableEq

/-- The chunks `copy_chunks` can relay: the header line contains no CRLF and
its entire first space-separated token parses in hex (via `int(..., 16)`) to
the (positive) data length.  This is strictly narrower than the wire grammar
`hex-size [;extensions]`: a header such as `5;x` is a valid chunk header on
the wire, but the code hands the whole token `5;x` to `int(-, 16)`, which
raises; `specChunkHeader` below captures the wire grammar itself. -/
def Chunk.relayable (c : Chunk) : Prop :=
  findCRLF c.header = none
  ∧ pyIntHex (pySplitFirst ' ' (pyStrip blankChars c.header)) = some (c.data.length : Int)
  ∧ 0 < c.data.length

instance (c : Chunk) : Decidable c.relayable := by
  unfold Chunk.relayable; infer_instance

/-- The wire grammar of a chunk header line, per the chunk syntax
`hex-size [;extensions] CRLF data CRLF`: a leading run of hex digits giving
the size (the "leading hex number"), optionally followed by an extension part
introduced by `;`.  (`digitsVal` returns `none` on the empty string, so the
digit run is forced non-empty.) -/
def specChunkHeader (header : Str) (size : Nat) : Prop :=
  ∃ ds ext, header = ds ++ ext ∧ digitsVal 16 ds = some size
    ∧ (ext = [] ∨ ∃ rest, ext = ';' :: rest)

/-- The wire form of one chunk: header CRLF data CRLF. -/
def serializeChunk (c : Chunk) : Str := c.header ++ CRLF ++ c.data ++ CRLF

/-- A chunked body: data chunks followed by trailer lines. -/
structure ChunkedBody where
  chunks : List Chunk
  trailers : List Str
deriving DecidableEq

/-- A trailer line is valid when it is non-empty and contains no CRLF. -/
def trailerValid (t : Str) : Prop := t ≠ [] ∧ findCRLF t = none

instance (t : Str) : Decidable (trailerValid t) := by
  unfold trailerValid; infer_instance

/-- A chunked body the code can relay: every chunk is relayable and every
trailer line is valid.  (The last-chunk line is serialized as the literal `0`
by `serializeChunked`, matching what the code writes after its loop.) -/
def ChunkedBody.relayable (b : ChunkedBody) : Prop :=
  (∀ c ∈ b.chunks, c.relayable) ∧ (∀ t ∈ b.trailers, trailerValid t)

instance (b : ChunkedBody) : Decidable b.relayable := by
  unfold ChunkedBody.relayable; infer_instance

/-- The wire form of the data chunks. -/
def chunksStr (cs : List Chunk) : Str := (cs.map serializeChunk).flatten

/-- The wire form of the trailer section. -/
def trailersStr (ts : List Str) : Str := (ts.map (· ++ CRLF)).flatten

/-- The full wire form of a chunked body: chunks, the `0` last-chunk line,
trailers, final CRLF. -/
def serializeChunked (b : ChunkedBody) : Str :=
  chunksStr b.chunks ++ '0' :: '\r' :: '\n' :: (trailersStr b.trailers ++ CRLF)

/-
Well-formed header blocks, for the header round-trip law.
-/

/-- Is the character SP or TAB? -/
def isBlank (c : Char) : Bool := pyContains blankChars c

/-- The wire form (minus CRLF) of one header pair: `name ": " value`. -/
def headerLine (p : Str × Str) : Str := p.1 ++ ':' :: ' ' :: p.2

/-- A well-formed unfolded header pair: non-empty colon-free name, neither
name nor value has leading or trailing blanks, and the wire line contains no
CRLF.  Exactly these lines serialize back to themselves. -/
def wfPair (p : Str × Str) : Prop :=
  p.1 ≠ [] ∧ ':' ∉ p.1
  ∧ p.1.dropWhile isBlank = p.1 ∧ p.1.reverse.dropWhile isBlank = p.1.reverse
  ∧ p.2.dropWhile isBlank = p.2 ∧ p.2.reverse.dropWhile isBlank = p.2.reverse
  ∧ findCRLF (headerLine p) = none

instance (p : Str × Str) : Decidable (wfPair p) := by
  unfold wfPair; infer_instance

/-- The wire form of a header block (one CRLF-terminated line per pair). -/
def blockStr (pairs : List (Str × Str)) : Str :=
  (pairs.map (fun p => headerLine p ++ CRLF)).flatten

/-
Concrete inputs and auxiliary definitions used by the theorems below.
-/

/-- The input stream of the folding example. -/
def c6Stream : HttpInputStream :=
  ⟨[str "GET / HTTP/1.1\r\nX-Long: a\r\n \t b\r\n\r\n"], [], 131072⟩

/-- A select round reporting peer 0 readable and no exceptional condition. -/
def eofStep : SelectStep := ⟨[0], []⟩

/-- A tunnel whose peers are both at EOF: every `recv` returns `""`. -/
def eofTunnel : TunnelSt := ⟨[], [], [], []⟩

/-- The well-formed response start line of the failing input. -/
def okResponse : HttpMessage := ⟨str "HTTP/1.1 200 OK", ⟨[], []⟩, [], false⟩

/-- The invariant of the header multimap: the key and value lists run in
parallel. -/
def HttpHeaders.wf (h : HttpHeaders) : Prop := h.keys.length = h.values.length

/-- The pure shape of the header loop: thread the message and the pending
previous line through the list of header lines. -/
def foldHeaderLines (m : HttpMessage) (prev : Str) : List (Str × Str) → HttpMessage × Str
  | [] => (m, prev)
  | p :: ps =>
    foldHeaderLines (if prev = [] then m else m.add_header_line prev) (headerLine p) ps

/-- End-to-end rewrite pipeline: parse the client bytes as a request, run the
handler's rewrite, and serialize the forwarded request, returning the upstream
(host, port) and the bytes sent. -/
def forwardOf (clientBytes : Str) : Option (Str × Int × Str) :=
  match HttpInputStream.read_request ⟨[clientBytes], [], 131072⟩ with
  | .ok (r, _) => (handle_request_fwd r).map (fun t => (t.1, t.2.1, HttpMessage.toStr t.2.2))
  | .error _ => none

/-- A non-empty buffer makes `wait` a no-op. -/
theorem wait_of_ne (st : HttpInputStream) (h : st.rdbuf ≠ []) : st.wait = .ok st := by
  simp [HttpInputStream.wait, h]

/-- Unfolding equation for `findCRLF` on two or more characters. -/
theorem findCRLF_cons2 (c1 c2 : Char) (rest : Str) :
    findCRLF (c1 :: c2 :: rest)
      = if c1 = '\r' ∧ c2 = '\n' then some 0
        else (findCRLF (c2 :: rest)).map (· + 1) := by
  rfl

/-- `findCRLF` locates the terminator appended after a CRLF-free string. -/
theorem findCRLF_append (b : Str) :
    ∀ a : Str, findCRLF a = none → findCRLF (a ++ '\r' :: '\n' :: b) = some a.length := by
  intro a
  induction a with
  | nil => intro _; rfl
  | cons c cs ih =>
    intro h
    cases cs with
    | nil =>
      show findCRLF (c :: '\r' :: '\n' :: b) = some 1
      have hc : ¬ (c = '\r' ∧ '\r' = '\n') := by
        rintro ⟨_, h2⟩; exact absurd h2 (by decide)
      rw [findCRLF_cons2, if_neg hc, findCRLF_cons2, if_pos ⟨rfl, rfl⟩]
      rfl
    | cons c' cs' =>
      simp only [List.cons_append]
      rw [findCRLF_cons2]
      rw [findCRLF_cons2] at h
      by_cases hif : c = '\r' ∧ c' = '\n'
      · rw [if_pos hif] at h; exact absurd h (by simp)
      · rw [if_neg hif] at h
        rw [if_neg hif]
        have := ih (by simpa using h)
        simp only [List.cons_append] at this
        rw [this]
        rfl

/-- Unfolding equation for `readLineLoop` with positive fuel. -/
theorem readLineLoop_succ (fuel : Nat) (r : Str) (st : HttpInputStream) :
    readLineLoop (fuel + 1) r st
      = if st.maxrdbuf ≤ r.length then .error (.ioException "read_line run out of buffer")
        else match st.wait with
          | .error e => .error e
          | .ok st' =>
            match findCRLF st'.rdbuf with
            | some p =>
              .ok (r ++ st'.rdbuf.take p, { st' with rdbuf := st'.rdbuf.drop (p + 2) })
            | none => readLineLoop fuel (r ++ st'.rdbuf) { st' with rdbuf := [] } := rfl

/-- `read_line` on a buffer holding a CRLF-free line, its terminator, and the
remainder returns the line and leaves exactly the remainder. -/
theorem read_line_eq (segs : List Str) (a b : Str) (mx : Nat)
    (ha : findCRLF a = none) (hmx : 0 < mx) :
    HttpInputStream.read_line ⟨segs, a ++ '\r' :: '\n' :: b, mx⟩ = .ok (a, ⟨segs, b, mx⟩) := by
  have ht : (a ++ '\r' :: '\n' :: b).take a.length = a := List.take_left a _
  have hd : (a ++ '\r' :: '\n' :: b).drop (a.length + 2) = b := by
    rw [show a ++ '\r' :: '\n' :: b = (a ++ ['\r', '\n']) ++ b by simp]
    rw [show a.length + 2 = (a ++ ['\r', '\n']).length by simp]
    exact List.drop_left _ _
  show readLineLoop (segs.length + 2) [] _ = _
  rw [show segs.length + 2 = (segs.length + 1) + 1 from rfl, readLineLoop_succ]
  rw [if_neg (by simp; omega)]
  rw [wait_of_ne _ (by simp)]
  show (match findCRLF (a ++ '\r' :: '\n' :: b) with
    | some p =>
      (Except.ok
        ([] ++ (a ++ '\r' :: '\n' :: b).take p,
         { segs := segs, rdbuf := (a ++ '\r' :: '\n' :: b).drop (p + 2), maxrdbuf := mx })
        : Except Err (Str × HttpInputStream))
    | none =>
      readLineLoop (segs.length + 1) ([] ++ (a ++ '\r' :: '\n' :: b))
        { segs := segs, rdbuf := [], maxrdbuf := mx }) = _
  rw [findCRLF_append b a ha]
  simp [ht, hd]

/-- Unfolding equation for `copyBytesLoop` with positive fuel. -/
theorem copyBytesLoop_succ (count fuel copied : Nat) (out : Str) (src : HttpInputStream) :
    copyBytesLoop count (fuel + 1) copied out src
      = if copied ≠ count then
          match src.read_some (count - copied) with
          | .error e => .error e
          | .ok (d, src') => copyBytesLoop count fuel (copied + d.length) (out ++ d) src'
        else .ok (src, out) := rfl

/-- `copy_bytes` for a count equal to the length of the buffer's first part
copies exactly that part and consumes nothing further. -/
theorem copy_bytes_eq (segs : List Str) (d rest : Str) (mx : Nat) :
    HttpOutputStream.copy_bytes ⟨segs, d ++ rest, mx⟩ d.length
      = .ok (⟨segs, rest, mx⟩, d) := by
  cases d with
  | nil => rfl
  | cons c ds =>
    show copyBytesLoop (c :: ds).length ((c :: ds).length + 1) 0 [] _ = _
    rw [show (c :: ds).length + 1 = (ds.length + 1) + 1 from rfl, copyBytesLoop_succ]
    rw [if_pos (by simp)]
    have hrs : HttpInputStream.read_some ⟨segs, (c :: ds) ++ rest, mx⟩ ((c :: ds).length - 0)
        = .ok ((c :: ds), ⟨segs, rest, mx⟩) := by
      unfold HttpInputStream.read_some
      rw [wait_of_ne _ (by simp)]
      rw [show (c :: ds).length - 0 = (c :: ds).length from rfl]
      show Except.ok (((c :: ds) ++ rest).take (c :: ds).length,
          ({ segs := segs, rdbuf := ((c :: ds) ++ rest).drop (c :: ds).length,
             maxrdbuf := mx } : HttpInputStream)) = _
      rw [List.take_left (c :: ds) rest, List.drop_left (c :: ds) rest]
    rw [hrs]
    show copyBytesLoop (c :: ds).length (ds.length + 1) (0 + (c :: ds).length)
        ([] ++ (c :: ds)) ⟨segs, rest, mx⟩ = _
    rw [copyBytesLoop_succ, if_neg (by simp)]
    simp

/-
C1.  The spec says `read_exact(n)` returns exactly n bytes.  The source of
`HttpInputStream.read` computes `a = n - len(r)` and then replaces `a` by
`len(self.rdbuf)` whenever `a < len(self.rdbuf)` — a maximum where the refill
read needs a minimum — so whenever the buffer holds more than the requested
count, the whole buffer is returned and consumed.
-/

/-- C1: with `"ab"` buffered, `read(1)` returns both bytes and consumes both,
contradicting its own docstring ("Read n bytes from the stream") and the
spec's `read_exact` contract. -/
theorem read_returns_excess :
    HttpInputStream.read ⟨[], str "ab", 131072⟩ 1 = .ok (str "ab", ⟨[], [], 131072⟩)
    ∧ (str "ab").length ≠ 1 := by
  exact ⟨rfl, by decide⟩

/-
C4.  `read_request` forces `body_pending := True` for every method outside
GET/HEAD/DELETE/CONNECT/TRACE, even when `read_message` already buffered the
whole body and cleared the flag.
-/

/-- C4 counterexample: a POST with `Content-Length: 1` whose body byte is
buffered ends with `body = "x"` but `body_pending = true`; the claim says the
flag stays false in this situation. -/
theorem post_body_pending_cex :
    (HttpInputStream.read_request
        ⟨[str "POST / HTTP/1.1\r\nContent-Length: 1\r\n\r\nx"], [], 131072⟩).map
        (fun p => (p.1.body, p.1.body_pending))
      = .ok (str "x", true) := rfl

/-- C4 amended: after `read_request` succeeds, `body_pending` is false exactly
when the method is one of GET/HEAD/DELETE/CONNECT/TRACE; for every other
method it is forced to true regardless of the generic parse. -/
theorem read_request_body_pending (st : HttpInputStream) (r : HttpMessage)
    (st' : HttpInputStream) (h : st.read_request = .ok (r, st')) :
    r.body_pending = false ↔ HttpRequest.method r ∈ noBodyMethods := by
  unfold HttpInputStream.read_request at h
  cases hm : st.read_message emptyMessage with
  | error e => rw [hm] at h; exact absurd h (by simp)
  | ok p =>
    obtain ⟨r0, st0⟩ := p
    rw [hm] at h
    have h' : (if HttpRequest.method r0 ∈ noBodyMethods then
          (Except.ok ({ r0 with body_pending := false }, st0)
            : Except Err (HttpMessage × HttpInputStream))
        else Except.ok ({ r0 with body_pending := true }, st0)) = .ok (r, st') := h
    by_cases hmem : HttpRequest.method r0 ∈ noBodyMethods
    · rw [if_pos hmem] at h'
      have hr : r = { r0 with body_pending := false } := by
        cases h'; rfl
      subst hr
      simpa [HttpRequest.method] using hmem
    · rw [if_neg hmem] at h'
      have hr : r = { r0 with body_pending := true } := by
        cases h'; rfl
      subst hr
      simpa [HttpRequest.method] using hmem

/-- C4 witness: instantiating the amended theorem on a parsed GET request. -/
theorem read_request_body_pending_witness :
    (⟨str "GET / HTTP/1.1", ⟨[], []⟩, [], false⟩ : HttpMessage).body_pending = false
      ↔ HttpRequest.method ⟨str "GET / HTTP/1.1", ⟨[], []⟩, [], false⟩ ∈ noBodyMethods :=
  read_request_body_pending ⟨[str "GET / HTTP/1.1\r\n\r\n"], [], 131072⟩
    ⟨str "GET / HTTP/1.1", ⟨[], []⟩, [], false⟩ ⟨[], [], 131072⟩ rfl

/-
C6.  The folding branch executes `prev_line += curr_line.strip(" \t")`: the
stripped continuation is concatenated with no separating space.
-/

/-- C6 counterexample: the folded block does not parse to the value `a b`
the claim states. -/
theorem folded_header_cex :
    (c6Stream.read_message emptyMessage).map (fun p => p.1.headers)
      ≠ .ok ⟨[str "X-Long"], [str "a b"]⟩ := by decide

/-- C6 amended: the continuation line's trimmed content is appended with no
separator, so `X-Long: a` folded with ` \t b` parses to the single header
`X-Long` with value `ab`. -/
theorem folded_header_parse :
    (c6Stream.read_message emptyMessage).map (fun p => p.1.headers)
      = .ok ⟨[str "X-Long"], [str "ab"]⟩ := rfl

/-
C8.  `SocketTunnel.run` breaks out of its loop only on `len(x)`; a zero-length
receive (EOF) is forwarded as an empty send and the loop continues.
-/

/-- C8 counterexample: five rounds in which peer 0 signals EOF leave the pump
still running, and a single EOF round reproduces the starting state exactly
(so the loop can never terminate on EOF alone). -/
theorem tunnel_eof_cex :
    SocketTunnel.run (List.replicate 5 eofStep) eofTunnel = none
    ∧ SocketTunnel.step eofStep eofTunnel = (eofTunnel, false) := ⟨rfl, rfl⟩

/-- C8 amended: the pump exits its loop (raising `IOException`) exactly when
some select round reports an exceptional condition, and the handler's cleanup
then closes both sockets. -/
theorem tunnel_terminates_iff :
    (∀ (trace : List SelectStep) (st : TunnelSt),
        (SocketTunnel.run trace st).isSome ↔ ∃ s ∈ trace, s.x ≠ [])
    ∧ ∀ h, HttpProxyHandler.final_clean h = ⟨true, true⟩ := by
  constructor
  · intro trace
    induction trace with
    | nil => intro st; simp [SocketTunnel.run]
    | cons s rest ih =>
      intro st
      show (if (SocketTunnel.step s st).2 then some (SocketTunnel.step s st).1
        else SocketTunnel.run rest (SocketTunnel.step s st).1).isSome ↔ _
      by_cases hx : s.x = []
      · have : (SocketTunnel.step s st).2 = false := by
          simp [SocketTunnel.step, hx]
        rw [this]
        simpa [hx] using ih (SocketTunnel.step s st).1
      · have : (SocketTunnel.step s st).2 = true := by
          simp [SocketTunnel.step, hx]
        rw [this]
        simp [hx]
  · intro h; rfl

/-
C9.  `HttpResponse.code` and `HttpResponse.phrase` advance their index with
`a = ++a`, which Python parses as a double unary plus: `a` never changes, and
since `a` starts at the index of the first space the guard
`self.start_line[a] == ' '` holds forever.
-/

/-- C9: on the well-formed status line `HTTP/1.1 200 OK` both `code()` and
`phrase()` spin forever in the `while start_line[a] == ' '` loop — no fuel
bound lets them return. -/
theorem response_code_phrase_diverge :
    ∀ fuel : Nat, HttpResponse.code okResponse fuel = .error .fuel
      ∧ HttpResponse.phrase okResponse fuel = .error .fuel := by
  have ha : pyFind ' ' (str "HTTP/1.1 200 OK") = 8 := by decide
  have hpi : pyIndex (str "HTTP/1.1 200 OK") 8 = some ' ' := by decide
  have hloop : ∀ fuel : Nat,
      skipSpacesLoop (str "HTTP/1.1 200 OK") fuel 8 = .error .fuel := by
    intro fuel
    induction fuel with
    | zero => rfl
    | succ n ih =>
      show (match pyIndex (str "HTTP/1.1 200 OK") 8 with
        | none => Except.error Err.indexError
        | some c => if c = ' ' then skipSpacesLoop (str "HTTP/1.1 200 OK") n 8
            else .ok 8) = _
      rw [hpi]
      simpa using ih
  intro fuel
  constructor
  · show (match skipSpacesLoop okResponse.start_line fuel (pyFind ' ' okResponse.start_line) with
      | .error e => Except.error e
      | .ok a' => match pyIntDec (pySlice okResponse.start_line a'
            (pyFindFrom ' ' okResponse.start_line a')) with
        | some v => Except.ok v
        | none => Except.error Err.valueError) = _
    rw [show okResponse.start_line = str "HTTP/1.1 200 OK" from rfl, ha, hloop fuel]
  · show (match skipSpacesLoop okResponse.start_line fuel (pyFind ' ' okResponse.start_line) with
      | .error e => Except.error e
      | .ok a' => Except.ok (pyStrip blankChars (pySlice okResponse.start_line
          (pyFindFrom ' ' okResponse.start_line a' + 1) okResponse.start_line.length))) = _
    rw [show okResponse.start_line = str "HTTP/1.1 200 OK" from rfl, ha, hloop fuel]

/-
C10.  The parallel-list invariant of the header multimap.
-/

/-- `find` only returns indices below the key-list length. -/
theorem findLowerAux_lt (key : Str) :
    ∀ (ks : List Str) (i j : Nat), findLowerAux key i ks = some j → j < i + ks.length := by
  intro ks
  induction ks with
  | nil => intro i j h; exact absurd h (by simp [findLowerAux])
  | cons k ks ih =>
    intro i j h
    unfold findLowerAux at h
    by_cases hk : pyLower k = key
    · rw [if_pos hk] at h
      cases h
      simp
    · rw [if_neg hk] at h
      have := ih (i + 1) j h
      simpa [Nat.add_comm, Nat.add_left_comm] using this

/-- Indices returned by `HttpHeaders.find` are in range. -/
theorem find_lt (h : HttpHeaders) (key : Str) (start j : Nat)
    (hf : h.find key start = some j) : j < h.keys.length := by
  unfold HttpHeaders.find at hf
  by_cases hs : h.keys.length < start
  · rw [if_pos hs] at hf; exact absurd hf (by simp)
  · rw [if_neg hs] at hf
    have := findLowerAux_lt (pyLower key) (h.keys.drop start) start j hf
    have hlen : (h.keys.drop start).length = h.keys.length - start := by simp
    omega

/-- `pop` preserves the parallel-list invariant. -/
theorem pop_wf (h : HttpHeaders) (hw : h.wf) (i : Nat) (h' : HttpHeaders)
    (hp : h.pop i = some h') : h'.wf := by
  unfold HttpHeaders.pop at hp
  by_cases hi : i < h.keys.length ∧ i < h.values.length
  · rw [if_pos hi] at hp
    cases hp
    unfold HttpHeaders.wf
    rw [List.length_eraseIdx_of_lt hi.1, List.length_eraseIdx_of_lt hi.2, hw]
  · rw [if_neg hi] at hp; exact absurd hp (by simp)

/-- The delete loop preserves the parallel-list invariant. -/
theorem deleteAux_wf :
    ∀ (fuel : Nat) (h : HttpHeaders), h.wf → ∀ (key : Str) (i : Option Nat)
      (h' : HttpHeaders), deleteAux fuel h key i = some h' → h'.wf := by
  intro fuel
  induction fuel with
  | zero => intro h _ key i h' hd; exact absurd hd (by simp [deleteAux])
  | succ n ih =>
    intro h hw key i h' hd
    unfold deleteAux at hd
    cases i with
    | none => cases hd; exact hw
    | some i =>
      have hd' : (match h.pop i with
        | none => none
        | some h1 => deleteAux n h1 key (h1.find key i)) = some h' := hd
      cases hp : h.pop i with
      | none => rw [hp] at hd'; exact absurd hd' (by simp)
      | some h1 =>
        rw [hp] at hd'
        exact ih h1 (pop_wf h hw i h1 hp) key (h1.find key i) h' hd'

/-- C10: every mutating operation of the header multimap (`append`, `set`,
`delete`, `pop` — `__setitem__` delegates to `set`) preserves the equal length
of the parallel `keys`/`values` lists, and under the invariant `at(i)` is
defined for every index below the length. -/
theorem headers_parallel_invariant :
    (∀ h : HttpHeaders, h.wf → ∀ k v, (h.append k v).wf)
    ∧ (∀ h : HttpHeaders, h.wf → ∀ k v h', h.set k v = some h' → h'.wf)
    ∧ (∀ h : HttpHeaders, h.wf → ∀ k start h', h.delete k start = some h' → h'.wf)
    ∧ (∀ h : HttpHeaders, h.wf → ∀ i h', h.pop i = some h' → h'.wf)
    ∧ (∀ h : HttpHeaders, h.wf → ∀ i, i < h.keys.length → (h.at i).isSome) := by
  have hdel : ∀ h : HttpHeaders, h.wf → ∀ k start h', h.delete k start = some h' → h'.wf := by
    intro h hw k start h' hd
    exact deleteAux_wf (h.keys.length + 1) h hw k (h.find k start) h' hd
  refine ⟨?_, ?_, hdel, ?_, ?_⟩
  · intro h hw k v
    unfold HttpHeaders.wf HttpHeaders.append at *
    simp [hw]
  · intro h hw k v h' hs
    unfold HttpHeaders.set at hs
    cases hf : h.find k 0 with
    | none =>
      rw [hf] at hs
      cases hs
      unfold HttpHeaders.wf HttpHeaders.append at *
      simp [hw]
    | some i =>
      rw [hf] at hs
      have hw1 : ({ h with values := h.values.set i v } : HttpHeaders).wf := by
        unfold HttpHeaders.wf at *
        simp [hw]
      exact hdel _ hw1 k (i + 1) h' hs
  · intro h hw i h' hp
    exact pop_wf h hw i h' hp
  · intro h hw i hi
    unfold HttpHeaders.at
    have hk : ∃ k, h.keys.get? i = some k := by
      rw [List.get?_eq_getElem?]
      exact ⟨_, List.getElem?_eq_getElem hi⟩
    have hv : ∃ v, h.values.get? i = some v := by
      rw [List.get?_eq_getElem?]
      exact ⟨_, List.getElem?_eq_getElem (hw ▸ hi)⟩
    obtain ⟨k, hk⟩ := hk
    obtain ⟨v, hv⟩ := hv
    rw [hk, hv]
    rfl

/-- C10 witness: the invariant theorem applied to a concrete one-entry map. -/
theorem headers_parallel_invariant_witness :
    (HttpHeaders.append ⟨[str "Host"], [str "a"]⟩ (str "B") (str "2")).wf :=
  headers_parallel_invariant.1 ⟨[str "Host"], [str "a"]⟩ rfl (str "B") (str "2")

/-
C2.  The chunked relay identity.
-/

/-- A list is no longer than the flattening of a map with non-empty images. -/
theorem length_le_flatten_map {α : Type} (f : α → Str) :
    ∀ l : List α, (∀ x ∈ l, (f x).length ≠ 0) → l.length ≤ ((l.map f).flatten).length := by
  intro l
  induction l with
  | nil => intro _; simp
  | cons x xs ih =>
    intro h
    have hx : (f x).length ≠ 0 := h x (by simp)
    have := ih (fun y hy => h y (by simp [hy]))
    simp only [List.map_cons, List.flatten_cons, List.length_append, List.length_cons]
    omega

/-- Unfolding equation for `copyChunksLoop` with positive fuel. -/
theorem copyChunksLoop_succ (fuel : Nat) (out : Str) (src : HttpInputStream) :
    copyChunksLoop (fuel + 1) out src
      = match src.read_line with
        | .error e => .error e
        | .ok (chunkHeader, src1) =>
          match pyIntHex (pySplitFirst ' ' (pyStrip blankChars chunkHeader)) with
          | none => .error .valueError
          | some chunkSize =>
            if chunkSize ≤ 0 then .ok (src1, out)
            else match HttpOutputStream.copy_bytes src1 (chunkSize.toNat + 2) with
              | .error e => .error e
              | .ok (src2, d) => copyChunksLoop fuel (out ++ chunkHeader ++ CRLF ++ d) src2 := rfl

/-- Unfolding equation for `trailerLoop` with positive fuel. -/
theorem trailerLoop_succ (fuel : Nat) (out : Str) (src : HttpInputStream) :
    trailerLoop (fuel + 1) out src
      = match src.read_line with
        | .error e => .error e
        | .ok (t, src') =>
          if t = [] then .ok (src', out)
          else trailerLoop fuel (out ++ t ++ CRLF) src' := rfl

/-- One iteration of the chunk loop relays one relayable chunk verbatim. -/
theorem copyChunksLoop_step (segs : List Str) (mx : Nat) (hmx : 0 < mx)
    (c : Chunk) (hc : c.relayable) (rest2 out : Str) (fuel : Nat) :
    copyChunksLoop (fuel + 1) out ⟨segs, serializeChunk c ++ rest2, mx⟩
      = copyChunksLoop fuel (out ++ serializeChunk c) ⟨segs, rest2, mx⟩ := by
  obtain ⟨hcrlf, hparse, hpos⟩ := hc
  have hrl : HttpInputStream.read_line ⟨segs, serializeChunk c ++ rest2, mx⟩
      = .ok (c.header, ⟨segs, c.data ++ '\r' :: '\n' :: rest2, mx⟩) := by
    have hsh : serializeChunk c ++ rest2
        = c.header ++ '\r' :: '\n' :: (c.data ++ '\r' :: '\n' :: rest2) := by
      simp [serializeChunk, CRLF]
    rw [hsh]
    exact read_line_eq segs c.header _ mx hcrlf hmx
  have hcb : HttpOutputStream.copy_bytes ⟨segs, c.data ++ '\r' :: '\n' :: rest2, mx⟩
        ((c.data.length : Int).toNat + 2)
      = .ok (⟨segs, rest2, mx⟩, c.data ++ ['\r', '\n']) := by
    have h1 : c.data ++ '\r' :: '\n' :: rest2 = (c.data ++ ['\r', '\n']) ++ rest2 := by simp
    have h2 : ((c.data.length : Int)).toNat + 2 = (c.data ++ ['\r', '\n']).length := by simp
    rw [h1, h2]
    exact copy_bytes_eq segs _ rest2 mx
  have hneg : ¬ ((c.data.length : Int) ≤ 0) := by
    omega
  rw [copyChunksLoop_succ, hrl]
  simp only [hparse, if_neg hneg, hcb]
  have hout : out ++ c.header ++ CRLF ++ (c.data ++ ['\r', '\n'])
      = out ++ serializeChunk c := by
    simp [serializeChunk, CRLF]
  rw [hout]

/-- The chunk loop stops (without writing) at the `0` last-chunk line. -/
theorem copyChunksLoop_last (segs : List Str) (mx : Nat) (hmx : 0 < mx)
    (tail out : Str) (fuel : Nat) :
    copyChunksLoop (fuel + 1) out ⟨segs, '0' :: '\r' :: '\n' :: tail, mx⟩
      = .ok (⟨segs, tail, mx⟩, out) := by
  have hrl : HttpInputStream.read_line ⟨segs, '0' :: '\r' :: '\n' :: tail, mx⟩
      = .ok (['0'], ⟨segs, tail, mx⟩) :=
    read_line_eq segs ['0'] tail mx (by decide) hmx
  rw [copyChunksLoop_succ, hrl]
  have hp : pyIntHex (pySplitFirst ' ' (pyStrip blankChars ['0'])) = some 0 := by decide
  simp only [hp, if_pos (by omega : (0 : Int) ≤ 0)]

/-- The chunk loop relays every relayable chunk and stops at the `0` line. -/
theorem copyChunksLoop_eq (segs : List Str) (mx : Nat) (hmx : 0 < mx) :
    ∀ (cs : List Chunk), (∀ c ∈ cs, c.relayable) → ∀ (tail out : Str) (fuel : Nat),
      cs.length + 1 ≤ fuel →
      copyChunksLoop fuel out ⟨segs, chunksStr cs ++ '0' :: '\r' :: '\n' :: tail, mx⟩
        = .ok (⟨segs, tail, mx⟩, out ++ chunksStr cs) := by
  intro cs
  induction cs with
  | nil =>
    intro _ tail out fuel hf
    obtain ⟨f, rfl⟩ : ∃ f, fuel = f + 1 := ⟨fuel - 1, by omega⟩
    have hs : chunksStr [] ++ '0' :: '\r' :: '\n' :: tail = '0' :: '\r' :: '\n' :: tail := by
      simp [chunksStr]
    rw [hs, copyChunksLoop_last segs mx hmx tail out f]
    simp [chunksStr]
  | cons c cs ih =>
    intro hv tail out fuel hf
    obtain ⟨f, rfl⟩ : ∃ f, fuel = f + 1 := ⟨fuel - 1, by omega⟩
    have hs : chunksStr (c :: cs) ++ '0' :: '\r' :: '\n' :: tail
        = serializeChunk c ++ (chunksStr cs ++ '0' :: '\r' :: '\n' :: tail) := by
      simp [chunksStr]
    rw [hs, copyChunksLoop_step segs mx hmx c (hv c (by simp)) _ out f]
    rw [ih (fun x hx => hv x (by simp [hx])) tail (out ++ serializeChunk c) f (by simp at hf ⊢; omega)]
    simp [chunksStr]

/-- The trailer loop relays every valid trailer line and stops at the blank
line. -/
theorem trailerLoop_eq (segs : List Str) (mx : Nat) (hmx : 0 < mx) :
    ∀ (ts : List Str), (∀ t ∈ ts, trailerValid t) → ∀ (tail out : Str) (fuel : Nat),
      ts.length + 1 ≤ fuel →
      trailerLoop fuel out ⟨segs, trailersStr ts ++ '\r' :: '\n' :: tail, mx⟩
        = .ok (⟨segs, tail, mx⟩, out ++ trailersStr ts) := by
  intro ts
  induction ts with
  | nil =>
    intro _ tail out fuel hf
    obtain ⟨f, rfl⟩ : ∃ f, fuel = f + 1 := ⟨fuel - 1, by omega⟩
    have hrl : HttpInputStream.read_line ⟨segs, trailersStr [] ++ '\r' :: '\n' :: tail, mx⟩
        = .ok ([], ⟨segs, tail, mx⟩) := by
      have hs : trailersStr [] ++ '\r' :: '\n' :: tail = [] ++ '\r' :: '\n' :: tail := by
        simp [trailersStr]
      rw [hs]
      exact read_line_eq segs [] tail mx rfl hmx
    rw [trailerLoop_succ, hrl]
    simp [trailersStr]
  | cons t ts ih =>
    intro hv tail out fuel hf
    obtain ⟨f, rfl⟩ : ∃ f, fuel = f + 1 := ⟨fuel - 1, by omega⟩
    obtain ⟨hne, hcrlf⟩ := hv t (by simp)
    have hrl : HttpInputStream.read_line ⟨segs, trailersStr (t :: ts) ++ '\r' :: '\n' :: tail, mx⟩
        = .ok (t, ⟨segs, trailersStr ts ++ '\r' :: '\n' :: tail, mx⟩) := by
      have hs : trailersStr (t :: ts) ++ '\r' :: '\n' :: tail
          = t ++ '\r' :: '\n' :: (trailersStr ts ++ '\r' :: '\n' :: tail) := by
        simp [trailersStr, CRLF]
      rw [hs]
      exact read_line_eq segs t _ mx hcrlf hmx
    rw [trailerLoop_succ, hrl]
    simp only [if_neg hne]
    rw [ih (fun x hx => hv x (by simp [hx])) tail (out ++ t ++ CRLF) f (by simp at hf ⊢; omega)]
    simp [trailersStr, CRLF]

/-- The total remaining input of a stream with no pending segments. -/
theorem totalRemaining_nil (buf : Str) (mx : Nat) :
    (⟨[], buf, mx⟩ : HttpInputStream).totalRemaining = buf.length := by
  simp [HttpInputStream.totalRemaining]

/-- C2 amended: `copy_chunks` relays a chunked body byte-for-byte — every
chunk header verbatim with its CRLF and data, the `0` last-chunk line, every
trailer line, and the final CRLF — consuming not a byte beyond it, provided
every chunk header's entire first space-separated token hex-parses to the data
length (in particular, plain `hex-size` headers without extensions); a header
carrying a `;extension` makes `int(-, 16)` raise instead (see
`chunk_extension_cex`). -/
theorem copy_chunks_identity (b : ChunkedBody) (hv : b.relayable) (rest : Str) :
    HttpOutputStream.copy_chunks ⟨[], serializeChunked b ++ rest, 131072⟩
      = .ok (⟨[], rest, 131072⟩, serializeChunked b) := by
  obtain ⟨hvc, hvt⟩ := hv
  have hshape : serializeChunked b ++ rest
      = chunksStr b.chunks ++ '0' :: '\r' :: '\n' :: (trailersStr b.trailers ++ '\r' :: '\n' :: rest) := by
    simp [serializeChunked, CRLF]
  have hcl : ∀ c ∈ b.chunks, (serializeChunk c).length ≠ 0 := by
    intro c _
    have hlen : (serializeChunk c).length = c.header.length + (2 + (c.data.length + 2)) := by
      simp [serializeChunk, CRLF]
      omega
    omega
  have htl : ∀ t ∈ b.trailers, (t ++ CRLF).length ≠ 0 := by
    intro t _
    have hlen : (t ++ CRLF).length = t.length + 2 := by simp [CRLF]
    omega
  have hc1 : b.chunks.length ≤ (chunksStr b.chunks).length :=
    length_le_flatten_map serializeChunk b.chunks hcl
  have ht1 : b.trailers.length ≤ (trailersStr b.trailers).length :=
    length_le_flatten_map (· ++ CRLF) b.trailers htl
  have h1 : copyChunksLoop
        ((⟨[], serializeChunked b ++ rest, 131072⟩ : HttpInputStream).totalRemaining + 1)
        [] ⟨[], serializeChunked b ++ rest, 131072⟩
      = .ok (⟨[], trailersStr b.trailers ++ '\r' :: '\n' :: rest, 131072⟩,
             [] ++ chunksStr b.chunks) := by
    rw [show (⟨[], serializeChunked b ++ rest, 131072⟩ : HttpInputStream)
        = ⟨[], chunksStr b.chunks ++ '0' :: '\r' :: '\n'
            :: (trailersStr b.trailers ++ '\r' :: '\n' :: rest), 131072⟩ by rw [← hshape]]
    refine copyChunksLoop_eq [] 131072 (by omega) b.chunks hvc _ [] _ ?_
    rw [totalRemaining_nil]
    have hlen : (chunksStr b.chunks ++ '0' :: '\r' :: '\n'
        :: (trailersStr b.trailers ++ '\r' :: '\n' :: rest)).length
        = (chunksStr b.chunks).length + (trailersStr b.trailers).length + rest.length + 5 := by
      simp
      omega
    omega
  have h2 : trailerLoop
        ((⟨[], trailersStr b.trailers ++ '\r' :: '\n' :: rest, 131072⟩
            : HttpInputStream).totalRemaining + 1)
        (chunksStr b.chunks ++ str "0\r\n")
        ⟨[], trailersStr b.trailers ++ '\r' :: '\n' :: rest, 131072⟩
      = .ok (⟨[], rest, 131072⟩,
             (chunksStr b.chunks ++ str "0\r\n") ++ trailersStr b.trailers) := by
    refine trailerLoop_eq [] 131072 (by omega) b.trailers hvt rest _ _ ?_
    rw [totalRemaining_nil]
    have hlen : (trailersStr b.trailers ++ '\r' :: '\n' :: rest).length
        = (trailersStr b.trailers).length + rest.length + 2 := by
      simp
      omega
    omega
  have h0 : str "0\r\n" = ['0', '\r', '\n'] := rfl
  simp only [HttpOutputStream.copy_chunks, h1, List.nil_append, h2]
  simp [serializeChunked, CRLF, h0, List.append_assoc]

/-- C2 witness: the identity applied to the body `5 CRLF hello CRLF 0 CRLF
X-T: 1 CRLF CRLF`. -/
theorem copy_chunks_identity_witness :
    (⟨[⟨str "5", str "hello"⟩], [str "X-T: 1"]⟩ : ChunkedBody).relayable
    ∧ HttpOutputStream.copy_chunks
        ⟨[], serializeChunked ⟨[⟨str "5", str "hello"⟩], [str "X-T: 1"]⟩ ++ [], 131072⟩
      = .ok (⟨[], [], 131072⟩, serializeChunked ⟨[⟨str "5", str "hello"⟩], [str "X-T: 1"]⟩) :=
  ⟨by decide, copy_chunks_identity ⟨[⟨str "5", str "hello"⟩], [str "X-T: 1"]⟩ (by decide) []⟩

/-- C2 counterexample: the chunk header `5;x` follows the wire grammar
`hex-size [;extensions]` (leading hex number 5 = the data length of `hello`),
so `5;x CRLF hello CRLF 0 CRLF CRLF` is a valid chunked body — yet the code
hands the whole token `5;x` to `int(-, 16)`, which raises `ValueError`, so the
transfer fails instead of relaying the body. -/
theorem chunk_extension_cex :
    specChunkHeader (str "5;x") (str "hello").length
    ∧ HttpOutputStream.copy_chunks
        ⟨[], serializeChunked ⟨[⟨str "5;x", str "hello"⟩], []⟩, 131072⟩
      = .error .valueError
    ∧ HttpOutputStream.copy_chunks
        ⟨[], serializeChunked ⟨[⟨str "5;x", str "hello"⟩], []⟩, 131072⟩
      ≠ .ok (⟨[], [], 131072⟩, serializeChunked ⟨[⟨str "5;x", str "hello"⟩], []⟩) :=
  ⟨⟨str "5", str ";x", by decide, by decide, Or.inr ⟨str "x", by decide⟩⟩,
   by decide, by decide⟩

/-
C7.  The header round-trip law.
-/

/-- Dropping a head that survives `dropWhile` means the predicate rejects it. -/
theorem dropWhile_head_false {p : Char → Bool} {c : Char} {cs : Str}
    (h : (c :: cs).dropWhile p = c :: cs) : p c = false := by
  by_cases hc : p c
  · rw [List.dropWhile_cons, if_pos hc] at h
    have hlen : (cs.dropWhile p).length ≤ cs.length := by
      clear h
      induction cs with
      | nil => simp
      | cons a l ih =>
        rw [List.dropWhile_cons]
        split
        · simp only [List.length_cons]
          omega
        · simp
    rw [h] at hlen
    simp at hlen
  · simpa using hc

/-- A string fixed by both `dropWhile` passes is fixed by `strip`. -/
theorem pyStrip_eq_self {s : Str} (h1 : s.dropWhile isBlank = s)
    (h2 : s.reverse.dropWhile isBlank = s.reverse) : pyStrip blankChars s = s := by
  show ((s.dropWhile (pyContains blankChars)).reverse.dropWhile (pyContains blankChars)).reverse = s
  rw [show pyContains blankChars = isBlank from rfl, h1, h2, List.reverse_reverse]

/-- Stripping a single leading space from a stripped string. -/
theorem pyStrip_space_cons {v : Str} (h1 : v.dropWhile isBlank = v)
    (h2 : v.reverse.dropWhile isBlank = v.reverse) : pyStrip blankChars (' ' :: v) = v := by
  show (((' ' :: v).dropWhile (pyContains blankChars)).reverse.dropWhile
      (pyContains blankChars)).reverse = v
  rw [show pyContains blankChars = isBlank from rfl, List.dropWhile_cons,
    if_pos (by decide : isBlank ' ' = true), h1, h2, List.reverse_reverse]

/-- `findChar` locates a separator appended after a string free of it. -/
theorem findChar_append (ch : Char) (b : Str) :
    ∀ a : Str, ch ∉ a → findChar ch (a ++ ch :: b) = some a.length := by
  intro a
  induction a with
  | nil => intro _; simp [findChar]
  | cons c cs ih =>
    intro h
    have hne : ¬ (c = ch) := by rintro rfl; exact h (by simp)
    have hnm : ch ∉ cs := fun hm => h (by simp [hm])
    simp only [List.cons_append]
    show (if c = ch then some 0 else (findChar ch (cs ++ ch :: b)).map (· + 1))
      = some (c :: cs).length
    rw [if_neg hne, ih hnm]
    rfl

/-- On a well-formed pair's wire line, `add_header_line` appends exactly the
pair. -/
theorem add_header_line_wf (m : HttpMessage) (p : Str × Str) (hp : wfPair p) :
    m.add_header_line (headerLine p) = m.add p.1 p.2 := by
  obtain ⟨hk, hc, hk1, hk2, hv1, hv2, _⟩ := hp
  have hf : findChar ':' (headerLine p) = some p.1.length :=
    findChar_append ':' (' ' :: p.2) p.1 hc
  have ht : (headerLine p).take p.1.length = p.1 := List.take_left _ _
  have hd : (headerLine p).drop (p.1.length + 1) = ' ' :: p.2 := by
    show (p.1 ++ ':' :: ' ' :: p.2).drop (p.1.length + 1) = ' ' :: p.2
    rw [show p.1 ++ ':' :: ' ' :: p.2 = (p.1 ++ [':']) ++ ' ' :: p.2 by simp]
    rw [show p.1.length + 1 = (p.1 ++ [':']).length by simp]
    exact List.drop_left _ _
  unfold HttpMessage.add_header_line
  rw [hf]
  simp only [ht, hd]
  rw [pyStrip_eq_self hk1 hk2, pyStrip_space_cons hv1 hv2]

/-- Unfolding equation for `readHeaderLoop` with positive fuel. -/
theorem readHeaderLoop_succ (fuel : Nat) (st : HttpInputStream) (m : HttpMessage)
    (prev : Str) :
    readHeaderLoop (fuel + 1) st m prev
      = match st.read_line with
        | .error e => .error e
        | .ok (curr, st') =>
          match curr with
          | [] => .ok (m, prev, st')
          | c :: _ =>
            if pyContains blankChars c then
              readHeaderLoop fuel st' m (prev ++ pyStrip blankChars curr)
            else
              readHeaderLoop fuel st' (if prev = [] then m else m.add_header_line prev) curr
      := rfl

/-- The header loop over a block of well-formed lines computes
`foldHeaderLines` and consumes the block with its terminating blank line. -/
theorem readHeaderLoop_eq (segs : List Str) (mx : Nat) (hmx : 0 < mx) :
    ∀ (pairs : List (Str × Str)), (∀ p ∈ pairs, wfPair p) →
      ∀ (rest : Str) (m : HttpMessage) (prev : Str) (fuel : Nat),
        pairs.length + 1 ≤ fuel →
        readHeaderLoop fuel ⟨segs, blockStr pairs ++ '\r' :: '\n' :: rest, mx⟩ m prev
          = .ok ((foldHeaderLines m prev pairs).1, (foldHeaderLines m prev pairs).2,
                 ⟨segs, rest, mx⟩) := by
  intro pairs
  induction pairs with
  | nil =>
    intro _ rest m prev fuel hf
    obtain ⟨f, rfl⟩ : ∃ f, fuel = f + 1 := ⟨fuel - 1, by omega⟩
    have hrl : HttpInputStream.read_line ⟨segs, blockStr [] ++ '\r' :: '\n' :: rest, mx⟩
        = .ok ([], ⟨segs, rest, mx⟩) := by
      have hs : blockStr [] ++ '\r' :: '\n' :: rest = [] ++ '\r' :: '\n' :: rest := by
        simp [blockStr]
      rw [hs]
      exact read_line_eq segs [] rest mx rfl hmx
    rw [readHeaderLoop_succ, hrl]
    rfl
  | cons p ps ih =>
    intro hwf rest m prev fuel hf
    obtain ⟨f, rfl⟩ : ∃ f, fuel = f + 1 := ⟨fuel - 1, by omega⟩
    obtain ⟨hk, hc, hk1, hk2, hv1, hv2, hnoCRLF⟩ := hwf p (by simp)
    have hrl : HttpInputStream.read_line
          ⟨segs, blockStr (p :: ps) ++ '\r' :: '\n' :: rest, mx⟩
        = .ok (headerLine p, ⟨segs, blockStr ps ++ '\r' :: '\n' :: rest, mx⟩) := by
      have hs : blockStr (p :: ps) ++ '\r' :: '\n' :: rest
          = headerLine p ++ '\r' :: '\n' :: (blockStr ps ++ '\r' :: '\n' :: rest) := by
        simp [blockStr, CRLF]
      rw [hs]
      exact read_line_eq segs (headerLine p) _ mx hnoCRLF hmx
    rw [readHeaderLoop_succ, hrl]
    obtain ⟨k0, ks, hk0⟩ := List.exists_cons_of_ne_nil hk
    have hline : headerLine p = k0 :: (ks ++ ':' :: ' ' :: p.2) := by
      show p.1 ++ ':' :: ' ' :: p.2 = _
      rw [hk0]
      simp
    have hblank : isBlank k0 = false := by
      have h' : (k0 :: ks).dropWhile isBlank = k0 :: ks := by
        rw [← hk0]
        exact hk1
      exact dropWhile_head_false h'
    rw [hline]
    show (if pyContains blankChars k0 then
        readHeaderLoop f ⟨segs, blockStr ps ++ '\r' :: '\n' :: rest, mx⟩ m
          (prev ++ pyStrip blankChars (k0 :: (ks ++ ':' :: ' ' :: p.2)))
      else readHeaderLoop f ⟨segs, blockStr ps ++ '\r' :: '\n' :: rest, mx⟩
          (if prev = [] then m else m.add_header_line prev)
          (k0 :: (ks ++ ':' :: ' ' :: p.2))) = _
    rw [if_neg (by rw [show pyContains blankChars k0 = isBlank k0 from rfl, hblank]; simp)]
    rw [← hline]
    rw [ih (fun x hx => hwf x (by simp [hx])) rest _ (headerLine p) f
      (by simp at hf ⊢; omega)]
    rfl

/-- Unfolding equation for `foldHeaderLines` on a non-empty list. -/
theorem foldHeaderLines_cons (m : HttpMessage) (prev : Str) (p : Str × Str)
    (ps : List (Str × Str)) :
    foldHeaderLines m prev (p :: ps)
      = foldHeaderLines (if prev = [] then m else m.add_header_line prev)
          (headerLine p) ps := rfl

/-- Flushing after the fold equals adding every line in order (non-empty
pending line). -/
theorem flush_foldHeaderLines :
    ∀ (pairs : List (Str × Str)) (m : HttpMessage) (prev : Str), prev ≠ [] →
      (∀ p ∈ pairs, headerLine p ≠ []) →
      (if (foldHeaderLines m prev pairs).2 = [] then (foldHeaderLines m prev pairs).1
       else (foldHeaderLines m prev pairs).1.add_header_line (foldHeaderLines m prev pairs).2)
        = (pairs.map headerLine).foldl HttpMessage.add_header_line (m.add_header_line prev) := by
  intro pairs
  induction pairs with
  | nil =>
    intro m prev hprev _
    simp [foldHeaderLines, hprev]
  | cons p ps ih =>
    intro m prev hprev hall
    rw [foldHeaderLines_cons, if_neg hprev]
    rw [ih (m.add_header_line prev) (headerLine p) (hall p (by simp))
      (fun x hx => hall x (by simp [hx]))]
    rfl

/-- Flushing after the fold with an empty initial pending line. -/
theorem flush_foldHeaderLines_nil (pairs : List (Str × Str)) (m : HttpMessage)
    (hall : ∀ p ∈ pairs, headerLine p ≠ []) :
    (if (foldHeaderLines m [] pairs).2 = [] then (foldHeaderLines m [] pairs).1
     else (foldHeaderLines m [] pairs).1.add_header_line (foldHeaderLines m [] pairs).2)
      = (pairs.map headerLine).foldl HttpMessage.add_header_line m := by
  cases pairs with
  | nil => simp [foldHeaderLines]
  | cons p ps =>
    rw [foldHeaderLines_cons, if_pos rfl]
    rw [flush_foldHeaderLines ps m (headerLine p) (hall p (by simp))
      (fun x hx => hall x (by simp [hx]))]
    rfl

/-- Adding the wire lines of well-formed pairs appends exactly the pairs to
the header lists. -/
theorem foldl_add_header_lines :
    ∀ (pairs : List (Str × Str)), (∀ p ∈ pairs, wfPair p) → ∀ m : HttpMessage,
      (pairs.map headerLine).foldl HttpMessage.add_header_line m
        = { m with headers := ⟨m.headers.keys ++ pairs.map Prod.fst,
                               m.headers.values ++ pairs.map Prod.snd⟩ } := by
  intro pairs
  induction pairs with
  | nil => intro _ m; simp
  | cons p ps ih =>
    intro hwf m
    show (ps.map headerLine).foldl HttpMessage.add_header_line
        (m.add_header_line (headerLine p)) = _
    rw [add_header_line_wf m p (hwf p (by simp))]
    rw [ih (fun x hx => hwf x (by simp [hx]))]
    simp [HttpMessage.add, HttpHeaders.append]

/-- `getAux` misses when no key matches. -/
theorem getAux_none (key : Str) :
    ∀ (ks vs : List Str), (∀ k ∈ ks, pyLower k ≠ key) → getAux key ks vs = none := by
  intro ks
  induction ks with
  | nil => intro vs _; cases vs <;> rfl
  | cons k ks ih =>
    intro vs h
    cases vs with
    | nil => rfl
    | cons v vs =>
      show (if pyLower k = key then some v else getAux key ks vs) = none
      rw [if_neg (h k (by simp))]
      exact ih vs (fun x hx => h x (by simp [hx]))

/-- Serializing the parallel lists of a pair list reproduces its block. -/
theorem toStr_pairs :
    ∀ pairs : List (Str × Str),
      toStrAux (pairs.map Prod.fst) (pairs.map Prod.snd) = blockStr pairs := by
  intro pairs
  induction pairs with
  | nil => rfl
  | cons p ps ih =>
    show p.1 ++ ':' :: ' ' :: p.2 ++ CRLF ++ toStrAux (ps.map Prod.fst) (ps.map Prod.snd)
      = blockStr (p :: ps)
    rw [ih]
    simp [blockStr, headerLine, CRLF]

/-- Header lines of well-formed pairs are never empty. -/
theorem headerLine_ne_nil (pairs : List (Str × Str)) (hwf : ∀ p ∈ pairs, wfPair p) :
    ∀ p ∈ pairs, headerLine p ≠ [] := by
  intro p hp
  obtain ⟨hk, _⟩ := hwf p hp
  show p.1 ++ ':' :: ' ' :: p.2 ≠ []
  simp

/-- C7: parsing a well-formed, unfolded, `Content-Length`-free header block
yields exactly its pairs (in order, names and values verbatim), and
serializing those headers reproduces the input block byte for byte (the
terminating blank line being the serializer's final CRLF policy). -/
theorem header_round_trip (segs : List Str) (start : Str) (pairs : List (Str × Str))
    (rest : Str)
    (hstart : findCRLF start = none)
    (hwf : ∀ p ∈ pairs, wfPair p)
    (hcl : ∀ p ∈ pairs, pyLower p.1 ≠ str "content-length") :
    HttpInputStream.read_message
        ⟨segs, start ++ '\r' :: '\n' :: (blockStr pairs ++ '\r' :: '\n' :: rest), 131072⟩
        emptyMessage
      = .ok (⟨start, ⟨pairs.map Prod.fst, pairs.map Prod.snd⟩, [], true⟩,
             ⟨segs, rest, 131072⟩)
    ∧ HttpHeaders.toStr ⟨pairs.map Prod.fst, pairs.map Prod.snd⟩ = blockStr pairs := by
  refine ⟨?_, toStr_pairs pairs⟩
  have hrl : HttpInputStream.read_line
        ⟨segs, start ++ '\r' :: '\n' :: (blockStr pairs ++ '\r' :: '\n' :: rest), 131072⟩
      = .ok (start, ⟨segs, blockStr pairs ++ '\r' :: '\n' :: rest, 131072⟩) :=
    read_line_eq segs start _ 131072 hstart (by omega)
  have hbl : ∀ p ∈ pairs, (headerLine p ++ CRLF).length ≠ 0 := by
    intro p _
    have : (headerLine p ++ CRLF).length = (headerLine p).length + 2 := by simp [CRLF]
    omega
  have hfuel : pairs.length + 1
      ≤ (⟨segs, blockStr pairs ++ '\r' :: '\n' :: rest, 131072⟩
          : HttpInputStream).totalRemaining + 1 := by
    have h1 : pairs.length ≤ (blockStr pairs).length :=
      length_le_flatten_map (fun p => headerLine p ++ CRLF) pairs hbl
    simp only [HttpInputStream.totalRemaining]
    simp
    omega
  have hloop := readHeaderLoop_eq segs 131072 (by omega) pairs hwf rest
    { emptyMessage with start_line := start } []
    ((⟨segs, blockStr pairs ++ '\r' :: '\n' :: rest, 131072⟩
        : HttpInputStream).totalRemaining + 1) hfuel
  have hflush := flush_foldHeaderLines_nil pairs { emptyMessage with start_line := start }
    (headerLine_ne_nil pairs hwf)
  have hfold := foldl_add_header_lines pairs hwf { emptyMessage with start_line := start }
  have hget : HttpHeaders.get
        (⟨[] ++ pairs.map Prod.fst, [] ++ pairs.map Prod.snd⟩ : HttpHeaders)
        (str "Content-Length") = none := by
    show getAux (pyLower (str "Content-Length")) ([] ++ pairs.map Prod.fst)
        ([] ++ pairs.map Prod.snd) = none
    rw [show pyLower (str "Content-Length") = str "content-length" from rfl]
    simp only [List.nil_append]
    apply getAux_none
    intro k hk
    obtain ⟨p, hp, hpk⟩ := List.mem_map.mp hk
    rw [← hpk]
    exact hcl p hp
  simp only [HttpInputStream.read_message, hrl, hloop]
  rw [hflush, hfold]
  simp only [HttpMessage.get_int, HttpMessage.get]
  rw [show ({ emptyMessage with start_line := start } : HttpMessage).headers
      = ⟨[], []⟩ from rfl] at *
  simp only [hget]
  rfl

/-- C7 witness: the round trip on the concrete block `Host: a CRLF`. -/
theorem header_round_trip_witness :
    HttpInputStream.read_message
        ⟨[], str "GET / HTTP/1.1"
            ++ '\r' :: '\n' :: (blockStr [(str "Host", str "a")] ++ '\r' :: '\n' :: []),
          131072⟩
        emptyMessage
      = .ok (⟨str "GET / HTTP/1.1",
              ⟨[(str "Host", str "a")].map Prod.fst, [(str "Host", str "a")].map Prod.snd⟩,
              [], true⟩,
             ⟨[], [], 131072⟩)
    ∧ HttpHeaders.toStr
        ⟨[(str "Host", str "a")].map Prod.fst, [(str "Host", str "a")].map Prod.snd⟩
      = blockStr [(str "Host", str "a")] :=
  header_round_trip [] (str "GET / HTTP/1.1") [(str "Host", str "a")] []
    (by decide) (by decide) (by decide)

/-
C3.  The concrete forwarded request.
-/

/-- C3 counterexample: the forwarded bytes are not the claimed ones — the
code synthesizes `Host` before copying the surviving headers, so `Host`
precedes `User-Agent`. -/
theorem forwarded_request_cex :
    forwardOf (str "GET http://example.com/a?b=1 HTTP/1.1\r\nProxy-Connection: keep-alive\r\nUser-Agent: t\r\n\r\n")
      ≠ some (str "example.com", 80,
              str "GET /a?b=1 HTTP/1.1\r\nUser-Agent: t\r\nHost: example.com\r\n\r\n") := by
  decide

/-- C3 amended: the request is forwarded to example.com:80 with the
proxy-prefixed header dropped and `Host` synthesized, but the synthesized
`Host` comes first: `GET /a?b=1 HTTP/1.1 CRLF Host: example.com CRLF
User-Agent: t CRLF CRLF`. -/
theorem forwarded_request_eq :
    forwardOf (str "GET http://example.com/a?b=1 HTTP/1.1\r\nProxy-Connection: keep-alive\r\nUser-Agent: t\r\n\r\n")
      = some (str "example.com", 80,
              str "GET /a?b=1 HTTP/1.1\r\nHost: example.com\r\nUser-Agent: t\r\n\r\n") := by
  decide

/-
C5.  Host/port extraction for non-CONNECT requests.
-/

end Seal
